import Mathlib

/-!
Shallow embedding of `etapa2_estatisticas_filmes.py` (class `EstatisticasFilmes`).

A movie record (`MovieRecord` in the spec) carries a name, a numeric rating
(Python float, modelled exactly as a rational), a director, a duration pair
`(hours, minutes)` of Python integers (modelled as `ℤ × ℤ`) and a streaming
flag.  The class field `self.filmes` is modelled by passing the record list
`filmes : List Filme` explicitly to each method.  Python's `sorted` /
`list.sort` are stable sorts; a stable sort for a total preorder has a unique
result, so `List.insertionSort` with the corresponding relation is an exact
model.  `max` / `min` with a key scan left to right and replace the current
best only on a strict improvement, so the first optimum wins; `pyMax` /
`pyMin` reproduce that.  `collections.Counter` is a `dict` subclass, hence
preserves insertion order: an existing key keeps its position, a new key goes
to the end; `counterAdd` reproduces that on an association list.
-/

structure Filme where
  nome : String
  avaliacao : ℚ
  diretor : String
  duracao : ℤ × ℤ
  streaming : Bool
deriving DecidableEq

/-- Method `calcular_media_avaliacao` (lines 25-32): returns `0.0` on the
empty collection, otherwise `sum(avaliacoes) / len(avaliacoes)` where
`avaliacoes = list(map(lambda filme: filme['avaliacao'], self.filmes))`. -/
def calcular_media_avaliacao (filmes : List Filme) : ℚ :=
  if filmes = [] then 0
  else
    let avaliacoes := filmes.map (fun filme => filme.avaliacao)
    avaliacoes.sum / (avaliacoes.length : ℚ)

/-- Method `calcular_mediana_avaliacao` (lines 34-44): returns `0.0` on the
empty collection, otherwise sorts the ratings ascending (`sorted`, a stable
sort, modelled by `insertionSort (· ≤ ·)`) and returns
`(a[n//2 - 1] + a[n//2]) / 2` when `n` is even, `a[n//2]` when `n` is odd.
Python indexing on an in-range index is modelled by `getD _ 0`. -/
def calcular_mediana_avaliacao (filmes : List Filme) : ℚ :=
  if filmes = [] then 0
  else
    let avaliacoes := (filmes.map (fun filme => filme.avaliacao)).insertionSort (· ≤ ·)
    let n := avaliacoes.length
    if n % 2 = 0 then (avaliacoes.getD (n / 2 - 1) 0 + avaliacoes.getD (n / 2) 0) / 2
    else avaliacoes.getD (n / 2)  0

/-- Default value of the `limite` parameter of `filmes_acima_avaliacao`. -/
def limite_default : ℚ := 6

/-- Default value of the `ordenar` parameter of `filmes_acima_avaliacao`. -/
def ordenar_default : Bool := true

/-- Method `filmes_acima_avaliacao` (lines 46-66): filters records with
`filme['avaliacao'] > limite` (strict), then, when `ordenar` is true, sorts
the filtered list in place by rating with `reverse=True` (Python's sort is
stable, and `reverse=True` reverses comparisons, not the output, so ties keep
their original relative order: the unique stable descending sort, modelled by
`insertionSort` with `b.avaliacao ≤ a.avaliacao`), and finally maps each
record to its name. -/
def filmes_acima_avaliacao (filmes : List Filme) (limite : ℚ) (ordenar : Bool) : List String :=
  if filmes = [] then []
  else
    let filmes_filtrados := filmes.filter (fun filme => limite < filme.avaliacao)
    let filmes_ordenados :=
      if ordenar then filmes_filtrados.insertionSort (fun a b => b.avaliacao ≤ a.avaliacao)
      else filmes_filtrados
    filmes_ordenados.map (fun filme => filme.nome)

/-- Method `filmes_em_streaming` (lines 68-73): names of the records whose
`streaming` flag is set, in original collection order. -/
def filmes_em_streaming (filmes : List Filme) : List String :=
  (filmes.filter (fun filme => filme.streaming)).map (fun filme => filme.nome)

/-- Method `duracao_em_minutos` (lines 75-77): `hours * 60 + minutes`. -/
def duracao_em_minutos (duracao_tuple : ℤ × ℤ) : ℤ :=
  duracao_tuple.1 * 60 + duracao_tuple.2

/-- Python `max(xs, key=k)`: scans left to right keeping the current best and
replaces it only when the new key is strictly greater, so the first maximal
element wins.  `none` models the `ValueError` Python raises on an empty
iterable (never reached in this program). -/
def pyMax {α β : Type} [LinearOrder β] (key : α → β) : List α → Option α
  | [] => none
  | x :: xs => some (xs.foldl (fun acc y => if key acc < key y then y else acc) x)

/-- Python `min(xs, key=k)`: the mirror of `pyMax`; the first minimal element
wins. -/
def pyMin {α β : Type} [LinearOrder β] (key : α → β) : List α → Option α
  | [] => none
  | x :: xs => some (xs.foldl (fun acc y => if key y < key acc then y else acc) x)

/-- Method `extremos_duracao` (lines 79-91): returns the two empty-dict
sentinels (modelled `(none, none)`) on the empty collection, otherwise the
pair `(mais_longo, mais_curto)` computed by `max` / `min` keyed on
`duracao_em_minutos`. -/
def extremos_duracao (filmes : List Filme) : Option Filme × Option Filme :=
  if filmes = [] then (none, none)
  else (pyMax (fun x => duracao_em_minutos x.duracao) filmes,
        pyMin (fun x => duracao_em_minutos x.duracao) filmes)

/-- One insertion into a Python `Counter` (a `dict`): an existing key keeps
its position and its value is incremented; a new key is appended at the end
with value 1. -/
def counterAdd (acc : List (String × Nat)) (d : String) : List (String × Nat) :=
  if acc.any (fun p => p.1 = d) then
    acc.map (fun p => if p.1 = d then (p.1, p.2 + 1) else p)
  else acc ++ [(d, 1)]

/-- `collections.Counter(diretores)` as an insertion-ordered association
list. -/
def counter (ds : List String) : List (String × Nat) :=
  ds.foldl counterAdd []

/-- Python `max` over a nonempty list of `Nat` (used on `contador.values()`;
the `[]` branch is unreachable there). -/
def pyMaxNat : List Nat → Nat
  | [] => 0
  | x :: xs => xs.foldl Nat.max x

/-- Method `moda_diretores` (lines 93-114): empty result on the empty
collection; otherwise counts directors with `Counter`, takes
`max(contador.values())` and keeps every `(diretor, contagem)` item whose
count equals the maximum, in `contador.items()` (insertion) order. -/
def moda_diretores (filmes : List Filme) : List (String × Nat) :=
  if filmes = [] then []
  else
    let diretores := filmes.map (fun filme => filme.diretor)
    let contador := counter diretores
    if contador = [] then []
    else
      let max_contagem := pyMaxNat (contador.map (fun p => p.2))
      contador.filter (fun p => p.2 = max_contagem)

/-- Line 188: `max(self.filmes, key=lambda x: x['avaliacao'])`. -/
def melhor_avaliado (filmes : List Filme) : Option Filme :=
  pyMax (fun x => x.avaliacao) filmes

/-- Line 192: `min(self.filmes, key=lambda x: x['avaliacao'])`. -/
def pior_avaliado (filmes : List Filme) : Option Filme :=
  pyMin (fun x => x.avaliacao) filmes

/-- Line 184: `(total_streaming / len(self.filmes)) * 100` with
`total_streaming = len(self.filmes_em_streaming())`. -/
def porcentagem_streaming (filmes : List Filme) : ℚ :=
  ((filmes_em_streaming filmes).length : ℚ) / (filmes.length : ℚ) * 100

/-- Data flow of `exibir_estatisticas_adicionais` (lines 176-200) restricted
to the streaming percentage: the method computes it unconditionally. -/
def exibir_estatisticas_adicionais_pct (filmes : List Filme) : ℚ :=
  porcentagem_streaming filmes

/-- Data flow of `exibir_estatisticas_completas` (lines 121-174) restricted
to the streaming percentage: the guard on line 123 returns early when
`self.filmes` is empty, so `exibir_estatisticas_adicionais` (line 174), and
with it the division on line 184, runs only on a nonempty collection. -/
def exibir_estatisticas_completas_pct (filmes : List Filme) : Option ℚ :=
  if filmes = [] then none
  else some (exibir_estatisticas_adicionais_pct filmes)

/-- Python `int(q)` on a float: truncation toward zero. -/
def pyInt (q : ℚ) : ℤ :=
  if 0 ≤ q then ⌊q⌋ else ⌈q⌉

/-- Python float floor division `a // b`. -/
def pyFloorDiv (a b : ℚ) : ℚ := (⌊a / b⌋ : ℤ)

/-- Python float modulo `a % b` (result has the sign of the divisor):
`a - b * (a // b)`. -/
def pyMod (a b : ℚ) : ℚ := a - b * (⌊a / b⌋ : ℤ)

/-- Lines 196-197: `duracoes = [...]; duracao_media_min = sum(duracoes) /
len(duracoes)` (exact integer sum, then float division). -/
def duracao_media_min (filmes : List Filme) : ℚ :=
  let duracoes := filmes.map (fun f => duracao_em_minutos f.duracao)
  (duracoes.sum : ℚ) / (duracoes.length : ℚ)

/-- Line 198: `horas = int(duracao_media_min // 60)`. -/
def duracao_media_horas (filmes : List Filme) : ℤ :=
  pyInt (pyFloorDiv (duracao_media_min filmes) 60)

/-- Line 199: `minutos = int(duracao_media_min % 60)`. -/
def duracao_media_minutos (filmes : List Filme) : ℤ :=
  pyInt (pyMod (duracao_media_min filmes) 60)

/-- First-occurrence order of the keys of a list: the insertion order of a
Python `dict` built by one left-to-right pass. -/
def firstOccurrences (ds : List String) : List String :=
  ds.foldl (fun acc d => if d ∈ acc then acc else acc ++ [d]) []

/-- State-passing embedding of `filmes_acima_avaliacao`: the list
comprehension on lines 57-60 allocates a fresh list `filmes_filtrados`; the
in-place `sort` on line 64 mutates that fresh list only, so the attribute
`self.filmes` the method finishes with is the one it started with. -/
def filmes_acima_avaliacao_st (filmes : List Filme) (limite : ℚ) (ordenar : Bool) :
    List String × List Filme :=
  if filmes = [] then ([], filmes)
  else
    let filmes_filtrados := filmes.filter (fun filme => limite < filme.avaliacao)
    let filmes_ordenados :=
      if ordenar then filmes_filtrados.insertionSort (fun a b => b.avaliacao ≤ a.avaliacao)
      else filmes_filtrados
    (filmes_ordenados.map (fun filme => filme.nome), filmes)

/-- State-passing embedding of `calcular_mediana_avaliacao`: `sorted` (line
40) returns a new list and never mutates its argument, so `self.filmes` is
returned unchanged. -/
def calcular_mediana_avaliacao_st (filmes : List Filme) : ℚ × List Filme :=
  (calcular_mediana_avaliacao filmes, filmes)

/-- State-passing embedding of `calcular_media_avaliacao`: `map` and `sum`
read the list without mutating it. -/
def calcular_media_avaliacao_st (filmes : List Filme) : ℚ × List Filme :=
  (calcular_media_avaliacao filmes, filmes)

/-- State-passing embedding of `filmes_em_streaming`: a list comprehension
allocates a fresh list. -/
def filmes_em_streaming_st (filmes : List Filme) : List String × List Filme :=
  (filmes_em_streaming filmes, filmes)

/-- State-passing embedding of `extremos_duracao`: `max` and `min` only read
the list. -/
def extremos_duracao_st (filmes : List Filme) :
    (Option Filme × Option Filme) × List Filme :=
  (extremos_duracao filmes, filmes)

/-- State-passing embedding of `moda_diretores`: the `Counter` is built from
a fresh comprehension list. -/
def moda_diretores_st (filmes : List Filme) : List (String × Nat) × List Filme :=
  (moda_diretores filmes, filmes)

/-- Records with ratings `5, 6, 7, 8` (spec example for `ratings_above`). -/
def exemploAvaliacoes : List Filme :=
  [⟨"f5", 5, "d1", (1, 30), true⟩,
   ⟨"f6", 6, "d2", (2, 0), false⟩,
   ⟨"f7", 7, "d1", (1, 45), true⟩,
   ⟨"f8", 8, "d3", (2, 10), false⟩]

/-- Records with ratings `3, 5, 7` (spec example for the odd median). -/
def exemploMedianaImpar : List Filme :=
  [⟨"a", 3, "d1", (1, 0), true⟩,
   ⟨"b", 5, "d2", (1, 10), false⟩,
   ⟨"c", 7, "d3", (1, 20), true⟩]

/-- Records with ratings `2, 4, 6, 8` (spec example for the even median). -/
def exemploMedianaPar : List Filme :=
  [⟨"a", 2, "d1", (1, 0), true⟩,
   ⟨"b", 4, "d2", (1, 10), false⟩,
   ⟨"c", 6, "d3", (1, 20), true⟩,
   ⟨"d", 8, "d4", (1, 30), false⟩]

/-- Records with directors `A, B, A, B, C` (spec example for the mode). -/
def exemploDiretores : List Filme :=
  [⟨"m1", 5, "A", (1, 0), true⟩,
   ⟨"m2", 6, "B", (1, 10), false⟩,
   ⟨"m3", 7, "A", (1, 20), true⟩,
   ⟨"m4", 8, "B", (1, 30), false⟩,
   ⟨"m5", 4, "C", (1, 40), true⟩]

/-- The left-to-right scan of Python `max(·, key)` started at `x`: the result
splits the scanned list `x :: l` as `pre ++ result :: suf`, is a maximum of
the scanned list, and every element before it has a strictly smaller key
(first maximal element wins). -/
theorem pyMax_foldl_spec {α β : Type} [LinearOrder β] (key : α → β) :
    ∀ (l : List α) (x : α),
      ∃ pre suf,
        x :: l = pre ++ (l.foldl (fun acc y => if key acc < key y then y else acc) x) :: suf ∧
        (∀ y ∈ x :: l, key y ≤ key (l.foldl (fun acc y => if key acc < key y then y else acc) x)) ∧
        (∀ y ∈ pre, key y < key (l.foldl (fun acc y => if key acc < key y then y else acc) x)) := by
  intro l
  induction l with
  | nil =>
    intro x
    exact ⟨[], [], rfl, by simp, by simp⟩
  | cons z l ih =>
    intro x
    by_cases hxz : key x < key z
    · have hfold : (z :: l).foldl (fun acc y => if key acc < key y then y else acc) x
          = l.foldl (fun acc y => if key acc < key y then y else acc) z := by
        simp [List.foldl_cons, if_pos hxz]
      obtain ⟨pre, suf, hdec, hmax, hpre⟩ := ih z
      have hxm : key x <
          key (l.foldl (fun acc y => if key acc < key y then y else acc) z) :=
        lt_of_lt_of_le hxz (hmax z (List.mem_cons_self z l))
      refine ⟨x :: pre, suf, ?_, ?_, ?_⟩
      · rw [hfold]
        simpa using hdec
      · rw [hfold]
        intro y hy
        rcases List.mem_cons.mp hy with hy | hy
        · exact hy ▸ le_of_lt hxm
        · exact hmax y hy
      · rw [hfold]
        intro y hy
        rcases List.mem_cons.mp hy with hy | hy
        · exact hy ▸ hxm
        · exact hpre y hy
    · have hfold : (z :: l).foldl (fun acc y => if key acc < key y then y else acc) x
          = l.foldl (fun acc y => if key acc < key y then y else acc) x := by
        simp [List.foldl_cons, if_neg hxz]
      have hzx : key z ≤ key x := not_lt.mp hxz
      obtain ⟨pre, suf, hdec, hmax, hpre⟩ := ih x
      cases pre with
      | nil =>
        have hmx : x = l.foldl (fun acc y => if key acc < key y then y else acc) x ∧ l = suf :=
          List.cons.injEq _ _ _ _ ▸ (by simpa using hdec)
        refine ⟨[], z :: l, ?_, ?_, by simp⟩
        · rw [hfold, ← hmx.1]
          rfl
        · rw [hfold]
          intro y hy
          rcases List.mem_cons.mp hy with hy | hy
          · exact hy ▸ hmax x (List.mem_cons_self x l)
          · rcases List.mem_cons.mp hy with hy | hy
            · exact hy ▸ le_trans hzx (hmax x (List.mem_cons_self x l))
            · exact hmax y (List.mem_cons_of_mem x hy)
      | cons p pre =>
        have hxl : x = p ∧
            l = pre ++ (l.foldl (fun acc y => if key acc < key y then y else acc) x) :: suf := by
          simpa using hdec
        have hxm : key x <
            key (l.foldl (fun acc y => if key acc < key y then y else acc) x) :=
          hxl.1 ▸ hpre p (List.mem_cons_self p pre)
        refine ⟨x :: z :: pre, suf, ?_, ?_, ?_⟩
        · rw [hfold]
          simpa using hxl.2
        · rw [hfold]
          intro y hy
          rcases List.mem_cons.mp hy with hy | hy
          · exact hy ▸ hmax x (List.mem_cons_self x l)
          · rcases List.mem_cons.mp hy with hy | hy
            · exact hy ▸ le_trans hzx (le_of_lt hxm)
            · exact hmax y (List.mem_cons_of_mem x hy)
        · rw [hfold]
          intro y hy
          rcases List.mem_cons.mp hy with hy | hy
          · exact hy ▸ hxm
          · rcases List.mem_cons.mp hy with hy | hy
            · exact hy ▸ lt_of_le_of_lt hzx hxm
            · exact hpre y (List.mem_cons_of_mem p hy)

/-- `pyMax` on a nonempty list returns the first element achieving the
maximal key. -/
theorem pyMax_spec {α β : Type} [LinearOrder β] (key : α → β) (l : List α) (h : l ≠ []) :
    ∃ m pre suf, pyMax key l = some m ∧ l = pre ++ m :: suf ∧
      (∀ y ∈ l, key y ≤ key m) ∧ (∀ y ∈ pre, key y < key m) := by
  cases l with
  | nil => exact absurd rfl h
  | cons x xs =>
    obtain ⟨pre, suf, hdec, hmax, hpre⟩ := pyMax_foldl_spec key xs x
    exact ⟨_, pre, suf, rfl, hdec, hmax, hpre⟩

/-- The left-to-right scan of Python `min(·, key)` started at `x`: the result
is a minimum of the scanned list and every element before it has a strictly
larger key (first minimal element wins). -/
theorem pyMin_foldl_spec {α β : Type} [LinearOrder β] (key : α → β) :
    ∀ (l : List α) (x : α),
      ∃ pre suf,
        x :: l = pre ++ (l.foldl (fun acc y => if key y < key acc then y else acc) x) :: suf ∧
        (∀ y ∈ x :: l, key (l.foldl (fun acc y => if key y < key acc then y else acc) x) ≤ key y) ∧
        (∀ y ∈ pre, key (l.foldl (fun acc y => if key y < key acc then y else acc) x) < key y) := by
  intro l
  induction l with
  | nil =>
    intro x
    exact ⟨[], [], rfl, by simp, by simp⟩
  | cons z l ih =>
    intro x
    by_cases hzx : key z < key x
    · have hfold : (z :: l).foldl (fun acc y => if key y < key acc then y else acc) x
          = l.foldl (fun acc y => if key y < key acc then y else acc) z := by
        simp [List.foldl_cons, if_pos hzx]
      obtain ⟨pre, suf, hdec, hmin, hpre⟩ := ih z
      have hmx : key (l.foldl (fun acc y => if key y < key acc then y else acc) z)
          < key x :=
        lt_of_le_of_lt (hmin z (List.mem_cons_self z l)) hzx
      refine ⟨x :: pre, suf, ?_, ?_, ?_⟩
      · rw [hfold]
        simpa using hdec
      · rw [hfold]
        intro y hy
        rcases List.mem_cons.mp hy with hy | hy
        · exact hy ▸ le_of_lt hmx
        · exact hmin y hy
      · rw [hfold]
        intro y hy
        rcases List.mem_cons.mp hy with hy | hy
        · exact hy ▸ hmx
        · exact hpre y hy
    · have hfold : (z :: l).foldl (fun acc y => if key y < key acc then y else acc) x
          = l.foldl (fun acc y => if key y < key acc then y else acc) x := by
        simp [List.foldl_cons, if_neg hzx]
      have hxz : key x ≤ key z := not_lt.mp hzx
      obtain ⟨pre, suf, hdec, hmin, hpre⟩ := ih x
      cases pre with
      | nil =>
        have hmx : x = l.foldl (fun acc y => if key y < key acc then y else acc) x ∧ l = suf :=
          List.cons.injEq _ _ _ _ ▸ (by simpa using hdec)
        refine ⟨[], z :: l, ?_, ?_, by simp⟩
        · rw [hfold, ← hmx.1]
          rfl
        · rw [hfold]
          intro y hy
          rcases List.mem_cons.mp hy with hy | hy
          · exact hy ▸ hmin x (List.mem_cons_self x l)
          · rcases List.mem_cons.mp hy with hy | hy
            · exact hy ▸ le_trans (hmin x (List.mem_cons_self x l)) hxz
            · exact hmin y (List.mem_cons_of_mem x hy)
      | cons p pre =>
        have hxl : x = p ∧
            l = pre ++ (l.foldl (fun acc y => if key y < key acc then y else acc) x) :: suf := by
          simpa using hdec
        have hmltx : key (l.foldl (fun acc y => if key y < key acc then y else acc) x)
            < key x :=
          hxl.1 ▸ hpre p (List.mem_cons_self p pre)
        refine ⟨x :: z :: pre, suf, ?_, ?_, ?_⟩
        · rw [hfold]
          simpa using hxl.2
        · rw [hfold]
          intro y hy
          rcases List.mem_cons.mp hy with hy | hy
          · exact hy ▸ hmin x (List.mem_cons_self x l)
          · rcases List.mem_cons.mp hy with hy | hy
            · exact hy ▸ le_trans (le_of_lt hmltx) hxz
            · exact hmin y (List.mem_cons_of_mem x hy)
        · rw [hfold]
          intro y hy
          rcases List.mem_cons.mp hy with hy | hy
          · exact hy ▸ hmltx
          · rcases List.mem_cons.mp hy with hy | hy
            · exact hy ▸ lt_of_lt_of_le hmltx hxz
            · exact hpre y (List.mem_cons_of_mem p hy)

/-- `pyMin` on a nonempty list returns the first element achieving the
minimal key. -/
theorem pyMin_spec {α β : Type} [LinearOrder β] (key : α → β) (l : List α) (h : l ≠ []) :
    ∃ m pre suf, pyMin key l = some m ∧ l = pre ++ m :: suf ∧
      (∀ y ∈ l, key m ≤ key y) ∧ (∀ y ∈ pre, key m < key y) := by
  cases l with
  | nil => exact absurd rfl h
  | cons x xs =>
    obtain ⟨pre, suf, hdec, hmin, hpre⟩ := pyMin_foldl_spec key xs x
    exact ⟨_, pre, suf, rfl, hdec, hmin, hpre⟩

/-- C3: on a nonempty collection `extremos_duracao` returns the pair
(longest, shortest) of full records selected by duration in minutes
(`hours * 60 + minutes`); ties for the maximum or the minimum are won by the
first such record in original collection order; the empty collection yields
the two empty sentinels without raising. -/
theorem extremos_duracao_spec :
    (∀ h m : ℤ, duracao_em_minutos (h, m) = h * 60 + m) ∧
    extremos_duracao [] = (none, none) ∧
    ∀ filmes : List Filme, filmes ≠ [] →
      ∃ mais_longo mais_curto : Filme,
        extremos_duracao filmes = (some mais_longo, some mais_curto) ∧
        (∃ pre suf, filmes = pre ++ mais_longo :: suf ∧
          (∀ f ∈ filmes, duracao_em_minutos f.duracao ≤ duracao_em_minutos mais_longo.duracao) ∧
          (∀ f ∈ pre, duracao_em_minutos f.duracao < duracao_em_minutos mais_longo.duracao)) ∧
        (∃ pre suf, filmes = pre ++ mais_curto :: suf ∧
          (∀ f ∈ filmes, duracao_em_minutos mais_curto.duracao ≤ duracao_em_minutos f.duracao) ∧
          (∀ f ∈ pre, duracao_em_minutos mais_curto.duracao < duracao_em_minutos f.duracao)) := by
  refine ⟨fun h m => rfl, rfl, fun filmes hne => ?_⟩
  obtain ⟨ml, pre1, suf1, hml, hdec1, hmax1, hpre1⟩ :=
    pyMax_spec (fun x : Filme => duracao_em_minutos x.duracao) filmes hne
  obtain ⟨mc, pre2, suf2, hmc, hdec2, hmin2, hpre2⟩ :=
    pyMin_spec (fun x : Filme => duracao_em_minutos x.duracao) filmes hne
  refine ⟨ml, mc, ?_, ⟨pre1, suf1, hdec1, hmax1, hpre1⟩, ⟨pre2, suf2, hdec2, hmin2, hpre2⟩⟩
  simp [extremos_duracao, hne, hml, hmc]

/-- Witness for C3 at the four-record example collection. -/
theorem extremos_duracao_spec_witness :
    ∃ mais_longo mais_curto : Filme,
      extremos_duracao exemploAvaliacoes = (some mais_longo, some mais_curto) ∧
      (∃ pre suf, exemploAvaliacoes = pre ++ mais_longo :: suf ∧
        (∀ f ∈ exemploAvaliacoes,
          duracao_em_minutos f.duracao ≤ duracao_em_minutos mais_longo.duracao) ∧
        (∀ f ∈ pre, duracao_em_minutos f.duracao < duracao_em_minutos mais_longo.duracao)) ∧
      (∃ pre suf, exemploAvaliacoes = pre ++ mais_curto :: suf ∧
        (∀ f ∈ exemploAvaliacoes,
          duracao_em_minutos mais_curto.duracao ≤ duracao_em_minutos f.duracao) ∧
        (∀ f ∈ pre, duracao_em_minutos mais_curto.duracao < duracao_em_minutos f.duracao)) :=
  extremos_duracao_spec.2.2 exemploAvaliacoes (by decide)

/-- C7: on a nonempty collection the best / worst records of
`exibir_estatisticas_adicionais` are selected by maximum / minimum rating,
and ties are won by the first occurrence in original collection order,
mirroring the `extremos_duracao` tie-break. -/
theorem melhor_pior_avaliado_spec :
    ∀ filmes : List Filme, filmes ≠ [] →
      ∃ melhor pior : Filme,
        melhor_avaliado filmes = some melhor ∧ pior_avaliado filmes = some pior ∧
        (∃ pre suf, filmes = pre ++ melhor :: suf ∧
          (∀ f ∈ filmes, f.avaliacao ≤ melhor.avaliacao) ∧
          (∀ f ∈ pre, f.avaliacao < melhor.avaliacao)) ∧
        (∃ pre suf, filmes = pre ++ pior :: suf ∧
          (∀ f ∈ filmes, pior.avaliacao ≤ f.avaliacao) ∧
          (∀ f ∈ pre, pior.avaliacao < f.avaliacao)) := by
  intro filmes hne
  obtain ⟨ml, pre1, suf1, hml, hdec1, hmax1, hpre1⟩ :=
    pyMax_spec (fun x : Filme => x.avaliacao) filmes hne
  obtain ⟨mc, pre2, suf2, hmc, hdec2, hmin2, hpre2⟩ :=
    pyMin_spec (fun x : Filme => x.avaliacao) filmes hne
  exact ⟨ml, mc, hml, hmc, ⟨pre1, suf1, hdec1, hmax1, hpre1⟩,
    ⟨pre2, suf2, hdec2, hmin2, hpre2⟩⟩

/-- Witness for C7 at the four-record example collection. -/
theorem melhor_pior_avaliado_spec_witness :
    ∃ melhor pior : Filme,
      melhor_avaliado exemploAvaliacoes = some melhor ∧
      pior_avaliado exemploAvaliacoes = some pior ∧
      (∃ pre suf, exemploAvaliacoes = pre ++ melhor :: suf ∧
        (∀ f ∈ exemploAvaliacoes, f.avaliacao ≤ melhor.avaliacao) ∧
        (∀ f ∈ pre, f.avaliacao < melhor.avaliacao)) ∧
      (∃ pre suf, exemploAvaliacoes = pre ++ pior :: suf ∧
        (∀ f ∈ exemploAvaliacoes, pior.avaliacao ≤ f.avaliacao) ∧
        (∀ f ∈ pre, pior.avaliacao < f.avaliacao)) :=
  melhor_pior_avaliado_spec exemploAvaliacoes (by decide)

/-- `int()` of a float that already carries an integer value is that
integer. -/
theorem pyInt_intCast (n : ℤ) : pyInt (n : ℚ) = n := by
  unfold pyInt
  split <;> simp

/-- `int()` truncates toward zero, which on a non-negative value is the
floor. -/
theorem pyInt_of_nonneg {q : ℚ} (h : 0 ≤ q) : pyInt q = ⌊q⌋ := by
  unfold pyInt
  exact if_pos h

/-- Python `%` with the positive divisor 60 returns a non-negative value. -/
theorem pyMod_sixty_nonneg (a : ℚ) : 0 ≤ pyMod a 60 := by
  unfold pyMod
  have h1 : ((⌊a / 60⌋ : ℤ) : ℚ) ≤ a / 60 := Int.floor_le _
  have h2 : (60 : ℚ) * ((⌊a / 60⌋ : ℤ) : ℚ) ≤ 60 * (a / 60) :=
    mul_le_mul_of_nonneg_left h1 (by norm_num)
  have h3 : (60 : ℚ) * (a / 60) = a := by field_simp
  linarith

/-- C5: the streaming-percentage computation never divides by zero: the guard
of `exibir_estatisticas_completas` returns early on the empty collection, so
the division of line 184 is reached only with a nonzero total, where the
result is `count(streaming) / total * 100`. -/
theorem porcentagem_streaming_segura :
    (∀ filmes : List Filme, filmes = [] → exibir_estatisticas_completas_pct filmes = none) ∧
    (∀ (filmes : List Filme) (q : ℚ), exibir_estatisticas_completas_pct filmes = some q →
      (filmes.length : ℚ) ≠ 0 ∧
      q = ((filmes.filter (fun f => f.streaming)).length : ℚ) / (filmes.length : ℚ) * 100) := by
  constructor
  · intro filmes h
    simp [exibir_estatisticas_completas_pct, h]
  · intro filmes q h
    by_cases hne : filmes = []
    · simp [exibir_estatisticas_completas_pct, hne] at h
    · rw [exibir_estatisticas_completas_pct, if_neg hne] at h
      have hq := Option.some.inj h
      constructor
      · have hlen : filmes.length ≠ 0 := fun hl => hne (List.length_eq_zero.mp hl)
        exact_mod_cast hlen
      · rw [← hq]
        simp [exibir_estatisticas_adicionais_pct, porcentagem_streaming, filmes_em_streaming]

/-- Witness for C5 at the four-record example collection. -/
theorem porcentagem_streaming_segura_witness :
    (exemploAvaliacoes.length : ℚ) ≠ 0 ∧
    (50 : ℚ) = ((exemploAvaliacoes.filter (fun f => f.streaming)).length : ℚ) /
      (exemploAvaliacoes.length : ℚ) * 100 :=
  porcentagem_streaming_segura.2 exemploAvaliacoes 50
    (by norm_num [exibir_estatisticas_completas_pct, exibir_estatisticas_adicionais_pct,
      porcentagem_streaming, filmes_em_streaming, exemploAvaliacoes, List.cons_ne_nil])

/-- C8: every aggregate leaves the stored record sequence unchanged, and
running it again on the unchanged state gives the same result. -/
theorem operacoes_puras :
    (∀ (filmes : List Filme) (limite : ℚ) (ordenar : Bool),
      (filmes_acima_avaliacao_st filmes limite ordenar).2 = filmes ∧
      (filmes_acima_avaliacao_st
          (filmes_acima_avaliacao_st filmes limite ordenar).2 limite ordenar).1 =
        (filmes_acima_avaliacao_st filmes limite ordenar).1) ∧
    (∀ filmes : List Filme,
      (calcular_mediana_avaliacao_st filmes).2 = filmes ∧
      (calcular_mediana_avaliacao_st (calcular_mediana_avaliacao_st filmes).2).1 =
        (calcular_mediana_avaliacao_st filmes).1) ∧
    (∀ filmes : List Filme,
      (calcular_media_avaliacao_st filmes).2 = filmes ∧
      (calcular_media_avaliacao_st (calcular_media_avaliacao_st filmes).2).1 =
        (calcular_media_avaliacao_st filmes).1) ∧
    (∀ filmes : List Filme,
      (filmes_em_streaming_st filmes).2 = filmes ∧
      (filmes_em_streaming_st (filmes_em_streaming_st filmes).2).1 =
        (filmes_em_streaming_st filmes).1) ∧
    (∀ filmes : List Filme,
      (extremos_duracao_st filmes).2 = filmes ∧
      (extremos_duracao_st (extremos_duracao_st filmes).2).1 =
        (extremos_duracao_st filmes).1) ∧
    (∀ filmes : List Filme,
      (moda_diretores_st filmes).2 = filmes ∧
      (moda_diretores_st (moda_diretores_st filmes).2).1 =
        (moda_diretores_st filmes).1) := by
  refine ⟨fun filmes limite ordenar => ?_, fun _ => ⟨rfl, rfl⟩, fun _ => ⟨rfl, rfl⟩,
    fun _ => ⟨rfl, rfl⟩, fun _ => ⟨rfl, rfl⟩, fun _ => ⟨rfl, rfl⟩⟩
  have hsnd : (filmes_acima_avaliacao_st filmes limite ordenar).2 = filmes := by
    unfold filmes_acima_avaliacao_st
    split <;> rfl
  exact ⟨hsnd, by rw [hsnd]⟩

/-- C9: on a nonempty collection the average duration is the arithmetic mean
of `duracao_em_minutos` over all records, and the display decomposition of
lines 198-199 satisfies `hours = floor(mean / 60)` and
`minutes = floor(mean mod 60)` with `mean mod 60 = mean - 60 * floor(mean / 60)`. -/
theorem duracao_media_spec (filmes : List Filme) (h : filmes ≠ []) :
    duracao_media_min filmes =
      ((filmes.map (fun f => duracao_em_minutos f.duracao)).sum : ℚ) / (filmes.length : ℚ) ∧
    duracao_media_horas filmes = ⌊duracao_media_min filmes / 60⌋ ∧
    duracao_media_minutos filmes =
      ⌊duracao_media_min filmes - 60 * (⌊duracao_media_min filmes / 60⌋ : ℚ)⌋ := by
  refine ⟨?_, ?_, ?_⟩
  · simp [duracao_media_min]
  · rw [duracao_media_horas, pyFloorDiv, pyInt_intCast]
  · rw [duracao_media_minutos, pyInt_of_nonneg (pyMod_sixty_nonneg _), pyMod]

/-- Witness for C9 at the four-record example collection. -/
theorem duracao_media_spec_witness :
    duracao_media_min exemploAvaliacoes =
      ((exemploAvaliacoes.map (fun f => duracao_em_minutos f.duracao)).sum : ℚ) /
        (exemploAvaliacoes.length : ℚ) ∧
    duracao_media_horas exemploAvaliacoes = ⌊duracao_media_min exemploAvaliacoes / 60⌋ ∧
    duracao_media_minutos exemploAvaliacoes =
      ⌊duracao_media_min exemploAvaliacoes -
        60 * (⌊duracao_media_min exemploAvaliacoes / 60⌋ : ℚ)⌋ :=
  duracao_media_spec exemploAvaliacoes (by decide)

/-- C6: on a nonempty collection the mean rating lies between the minimum
and the maximum rating present; the empty collection yields the sentinel
`0.0`. -/
theorem media_entre_min_max :
    (∀ filmes : List Filme, filmes = [] → calcular_media_avaliacao filmes = 0) ∧
    (∀ (filmes : List Filme) (mn mx : ℚ), filmes ≠ [] →
      (filmes.map (fun f => f.avaliacao)).minimum = (mn : WithTop ℚ) →
      (filmes.map (fun f => f.avaliacao)).maximum = (mx : WithBot ℚ) →
      mn ≤ calcular_media_avaliacao filmes ∧ calcular_media_avaliacao filmes ≤ mx) := by
  constructor
  · intro filmes h
    simp [calcular_media_avaliacao, h]
  · intro filmes mn mx hne hmn hmx
    obtain ⟨hmnmem, hmnle⟩ := List.minimum_eq_coe_iff.mp hmn
    obtain ⟨hmxmem, hmxle⟩ := List.maximum_eq_coe_iff.mp hmx
    have hlen : 0 < (filmes.map (fun f => f.avaliacao)).length := by
      rw [List.length_map]
      exact List.length_pos.mpr hne
    have hlenq : (0 : ℚ) < ((filmes.map (fun f => f.avaliacao)).length : ℚ) := by
      exact_mod_cast hlen
    have hsum_le : (filmes.map (fun f => f.avaliacao)).sum ≤
        (filmes.map (fun f => f.avaliacao)).length • mx :=
      List.sum_le_card_nsmul _ mx hmxle
    have hle_sum : (filmes.map (fun f => f.avaliacao)).length • mn ≤
        (filmes.map (fun f => f.avaliacao)).sum :=
      List.card_nsmul_le_sum _ mn hmnle
    have hmedia : calcular_media_avaliacao filmes =
        (filmes.map (fun f => f.avaliacao)).sum /
          (((filmes.map (fun f => f.avaliacao)).length : ℕ) : ℚ) := by
      rw [calcular_media_avaliacao, if_neg hne]
    rw [hmedia]
    constructor
    · rw [le_div_iff hlenq]
      calc mn * (((filmes.map (fun f => f.avaliacao)).length : ℕ) : ℚ)
          = ((filmes.map (fun f => f.avaliacao)).length : ℕ) • mn := by
            rw [nsmul_eq_mul, mul_comm]
        _ ≤ (filmes.map (fun f => f.avaliacao)).sum := hle_sum
    · rw [div_le_iff hlenq]
      calc (filmes.map (fun f => f.avaliacao)).sum
          ≤ ((filmes.map (fun f => f.avaliacao)).length : ℕ) • mx := hsum_le
        _ = mx * (((filmes.map (fun f => f.avaliacao)).length : ℕ) : ℚ) := by
            rw [nsmul_eq_mul, mul_comm]

/-- Witness for C6: on the example collection (ratings 5,6,7,8) the mean lies
between 5 and 8. -/
theorem media_entre_min_max_witness :
    (5 : ℚ) ≤ calcular_media_avaliacao exemploAvaliacoes ∧
    calcular_media_avaliacao exemploAvaliacoes ≤ 8 :=
  media_entre_min_max.2 exemploAvaliacoes 5 8 (by decide)
    (List.minimum_eq_coe_iff.mpr (by decide))
    (List.maximum_eq_coe_iff.mpr (by decide))

/-- C2: the median sorts the ratings ascending and returns, for `n` values,
the mean of the values at 0-based indices `n/2 - 1` and `n/2` when `n` is
even and the value at index `n/2` when `n` is odd (both indices in range);
the empty collection yields `0.0`; on ratings `[3,5,7]` it is `5` and on
`[2,4,6,8]` it is `5`. -/
theorem calcular_mediana_avaliacao_spec :
    (∀ filmes : List Filme, filmes = [] → calcular_mediana_avaliacao filmes = 0) ∧
    (∀ filmes : List Filme, filmes ≠ [] →
      ∃ s : List ℚ, s.Sorted (· ≤ ·) ∧ s.Perm (filmes.map (fun f => f.avaliacao)) ∧
        s.length = filmes.length ∧ s.length / 2 < s.length ∧ s.length / 2 - 1 < s.length ∧
        calcular_mediana_avaliacao filmes =
          (if s.length % 2 = 0 then (s.getD (s.length / 2 - 1) 0 + s.getD (s.length / 2) 0) / 2
           else s.getD (s.length / 2) 0)) ∧
    calcular_mediana_avaliacao exemploMedianaImpar = 5 ∧
    calcular_mediana_avaliacao exemploMedianaPar = 5 := by
  refine ⟨?_, ?_, ?_, ?_⟩
  · intro filmes h
    simp [calcular_mediana_avaliacao, h]
  · intro filmes hne
    refine ⟨(filmes.map (fun f => f.avaliacao)).insertionSort (· ≤ ·),
      List.sorted_insertionSort _ _, List.perm_insertionSort _ _, ?_, ?_, ?_, ?_⟩
    · rw [List.length_insertionSort, List.length_map]
    · refine Nat.div_lt_self ?_ (by norm_num)
      rw [List.length_insertionSort, List.length_map]
      exact List.length_pos.mpr hne
    · refine Nat.lt_of_le_of_lt (Nat.sub_le _ _) (Nat.div_lt_self ?_ (by norm_num))
      rw [List.length_insertionSort, List.length_map]
      exact List.length_pos.mpr hne
    · rw [calcular_mediana_avaliacao, if_neg hne]
  · norm_num [calcular_mediana_avaliacao, exemploMedianaImpar, List.insertionSort,
      List.orderedInsert, List.cons_ne_nil]
  · norm_num [calcular_mediana_avaliacao, exemploMedianaPar, List.insertionSort,
      List.orderedInsert, List.cons_ne_nil]

/-- Witness for C2 at the four-record even example. -/
theorem calcular_mediana_avaliacao_spec_witness :
    ∃ s : List ℚ, s.Sorted (· ≤ ·) ∧
      s.Perm (exemploMedianaPar.map (fun f => f.avaliacao)) ∧
      s.length = exemploMedianaPar.length ∧ s.length / 2 < s.length ∧
      s.length / 2 - 1 < s.length ∧
      calcular_mediana_avaliacao exemploMedianaPar =
        (if s.length % 2 = 0 then (s.getD (s.length / 2 - 1) 0 + s.getD (s.length / 2) 0) / 2
         else s.getD (s.length / 2) 0) :=
  calcular_mediana_avaliacao_spec.2.1 exemploMedianaPar (by decide)

/-- C1: `filmes_acima_avaliacao` returns exactly the names of the records
with rating strictly above the threshold (a rating equal to the threshold is
excluded); with `ordenar = false` the names keep the original collection
order; with `ordenar = true` they follow a stable descending sort by rating
(ties keep their original relative order, stated by pair-sublist
preservation); the two parameters default to `6.0` and `true` and are
overridable independently, as the example collection with ratings
`[5,6,7,8]` shows. -/
theorem filmes_acima_avaliacao_spec :
    (∀ (filmes : List Filme) (limite : ℚ),
      filmes_acima_avaliacao filmes limite false =
        (filmes.filter (fun f => limite < f.avaliacao)).map (fun f => f.nome)) ∧
    (∀ (filmes : List Filme) (limite : ℚ), ∃ s : List Filme,
      filmes_acima_avaliacao filmes limite true = s.map (fun f => f.nome) ∧
      s.Perm (filmes.filter (fun f => limite < f.avaliacao)) ∧
      s.Sorted (fun a b => b.avaliacao ≤ a.avaliacao) ∧
      (∀ a b : Filme, b.avaliacao ≤ a.avaliacao →
        List.Sublist [a, b] (filmes.filter (fun f => limite < f.avaliacao)) →
        List.Sublist [a, b] s)) ∧
    limite_default = 6 ∧ ordenar_default = true ∧
    filmes_acima_avaliacao exemploAvaliacoes limite_default ordenar_default = ["f8", "f7"] ∧
    filmes_acima_avaliacao exemploAvaliacoes limite_default false = ["f7", "f8"] ∧
    filmes_acima_avaliacao exemploAvaliacoes 7 ordenar_default = ["f8"] := by
  refine ⟨?_, ?_, rfl, rfl, by decide, by decide, by decide⟩
  · intro filmes limite
    by_cases h : filmes = []
    · simp [filmes_acima_avaliacao, h]
    · simp [filmes_acima_avaliacao, h]
  · intro filmes limite
    by_cases h : filmes = []
    · refine ⟨[], by simp [filmes_acima_avaliacao, h], by simp [h], by simp, ?_⟩
      intro a b _ hs
      rw [h] at hs
      simp at hs
    · haveI : IsTotal Filme (fun a b => b.avaliacao ≤ a.avaliacao) :=
        ⟨fun a b => le_total b.avaliacao a.avaliacao⟩
      haveI : IsTrans Filme (fun a b => b.avaliacao ≤ a.avaliacao) :=
        ⟨fun _ _ _ hab hbc => le_trans hbc hab⟩
      refine ⟨(filmes.filter (fun f => limite < f.avaliacao)).insertionSort
          (fun a b => b.avaliacao ≤ a.avaliacao),
        by simp [filmes_acima_avaliacao, h], List.perm_insertionSort _ _,
        List.sorted_insertionSort _ _, ?_⟩
      intro a b hab hs
      exact List.pair_sublist_insertionSort hab hs

/-- Witness for C1: the sorted branch at the example collection and the
default threshold. -/
theorem filmes_acima_avaliacao_spec_witness :
    ∃ s : List Filme,
      filmes_acima_avaliacao exemploAvaliacoes 6 true = s.map (fun f => f.nome) ∧
      s.Perm (exemploAvaliacoes.filter (fun f => (6 : ℚ) < f.avaliacao)) ∧
      s.Sorted (fun a b => b.avaliacao ≤ a.avaliacao) ∧
      (∀ a b : Filme, b.avaliacao ≤ a.avaliacao →
        List.Sublist [a, b] (exemploAvaliacoes.filter (fun f => (6 : ℚ) < f.avaliacao)) →
        List.Sublist [a, b] s) :=
  filmes_acima_avaliacao_spec.2.1 exemploAvaliacoes 6

/-- `counterAdd` keeps the key list unchanged for an existing key and appends
a new key at the end. -/
theorem counterAdd_keys (acc : List (String × Nat)) (d : String) :
    (counterAdd acc d).map Prod.fst =
      if d ∈ acc.map Prod.fst then acc.map Prod.fst else acc.map Prod.fst ++ [d] := by
  have hmem : (acc.any (fun p => p.1 = d) = true) ↔ d ∈ acc.map Prod.fst := by
    rw [List.any_eq_true]
    constructor
    · rintro ⟨p, hp, hpd⟩
      exact List.mem_map.mpr ⟨p, hp, of_decide_eq_true hpd⟩
    · intro hd
      obtain ⟨p, hp, hpd⟩ := List.mem_map.mp hd
      exact ⟨p, hp, decide_eq_true hpd⟩
  by_cases hc : acc.any (fun p => p.1 = d) = true
  · rw [counterAdd, if_pos hc, if_pos (hmem.mp hc), List.map_map]
    apply List.map_congr_left
    intro p _
    by_cases hp : p.1 = d <;> simp [hp]
  · rw [counterAdd, if_neg hc, if_neg (fun hd => hc (hmem.mpr hd))]
    simp

/-- Appending one element to the input applies one `counterAdd` step. -/
theorem counter_append (ds : List String) (d : String) :
    counter (ds ++ [d]) = counterAdd (counter ds) d := by
  simp [counter, List.foldl_append]

/-- Appending one element to the input extends `firstOccurrences` exactly
when the element is new. -/
theorem firstOccurrences_append (ds : List String) (d : String) :
    firstOccurrences (ds ++ [d]) =
      if d ∈ firstOccurrences ds then firstOccurrences ds
      else firstOccurrences ds ++ [d] := by
  simp [firstOccurrences, List.foldl_append]

/-- The keys of the counter, in order, are the directors in order of first
occurrence. -/
theorem counter_keys (ds : List String) :
    (counter ds).map Prod.fst = firstOccurrences ds := by
  induction ds using List.reverseRecOn with
  | nil => rfl
  | append_singleton ds d ih =>
    rw [counter_append, firstOccurrences_append, counterAdd_keys, ih]

/-- A key occurs in `firstOccurrences ds` exactly when it occurs in `ds`. -/
theorem mem_firstOccurrences : ∀ (ds : List String) (d : String),
    d ∈ firstOccurrences ds ↔ d ∈ ds := by
  intro ds
  induction ds using List.reverseRecOn with
  | nil =>
    intro d
    simp [firstOccurrences]
  | append_singleton ds e ih =>
    intro d
    rw [firstOccurrences_append]
    by_cases he : e ∈ firstOccurrences ds
    · rw [if_pos he]
      constructor
      · intro hd
        exact List.mem_append_left _ ((ih d).mp hd)
      · intro hd
        rcases List.mem_append.mp hd with hd | hd
        · exact (ih d).mpr hd
        · exact (List.mem_singleton.mp hd) ▸ he
    · rw [if_neg he]
      constructor
      · intro hd
        rcases List.mem_append.mp hd with hd | hd
        · exact List.mem_append_left _ ((ih d).mp hd)
        · exact List.mem_append_right _ hd
      · intro hd
        rcases List.mem_append.mp hd with hd | hd
        · exact List.mem_append_left _ ((ih d).mpr hd)
        · exact List.mem_append_right _ hd

/-- Every entry of the counter carries the number of occurrences of its key
in the input list. -/
theorem counter_counts : ∀ (ds : List String), ∀ p ∈ counter ds, p.2 = ds.count p.1 := by
  intro ds
  induction ds using List.reverseRecOn with
  | nil =>
    intro p hp
    simp [counter] at hp
  | append_singleton ds d ih =>
    intro p hp
    rw [counter_append, counterAdd] at hp
    by_cases hc : (counter ds).any (fun q => q.1 = d) = true
    · rw [if_pos hc] at hp
      obtain ⟨q, hq, hpq⟩ := List.mem_map.mp hp
      by_cases hqd : q.1 = d
      · rw [if_pos hqd] at hpq
        have hcount := ih q hq
        rw [← hpq]
        simp only [List.count_append, hqd, List.count_singleton]
        rw [hcount, hqd]
        simp
      · rw [if_neg hqd] at hpq
        have hcount := ih q hq
        rw [← hpq, List.count_append, hcount]
        have hz : List.count q.1 [d] = 0 := by
          simp [List.count_singleton', hqd]
        rw [hz]
        simp
    · rw [if_neg hc] at hp
      rcases List.mem_append.mp hp with hp | hp
      · have hpd : ¬(p.1 = d) := by
          intro hpd
          exact hc (List.any_eq_true.mpr ⟨p, hp, decide_eq_true hpd⟩)
        rw [List.count_append, ih p hp]
        have hz : List.count p.1 [d] = 0 := by
          simp [List.count_singleton', hpd]
        rw [hz]
        simp
      · have hpd : p = (d, 1) := List.mem_singleton.mp hp
        have hdnot : d ∉ ds := by
          intro hd
          have h1 : d ∈ (counter ds).map Prod.fst := by
            rw [counter_keys]
            exact (mem_firstOccurrences ds d).mpr hd
          obtain ⟨q, hq, hqd⟩ := List.mem_map.mp h1
          exact hc (List.any_eq_true.mpr ⟨q, hq, decide_eq_true hqd⟩)
        rw [hpd]
        simp [List.count_append, List.count_singleton, List.count_eq_zero.mpr hdnot]

/-- Membership in the counter characterised by membership and occurrence
count in the input list. -/
theorem counter_mem_iff (ds : List String) (d : String) (n : Nat) :
    (d, n) ∈ counter ds ↔ d ∈ ds ∧ n = ds.count d := by
  constructor
  · intro h
    have h1 : d ∈ (counter ds).map Prod.fst := List.mem_map_of_mem Prod.fst h
    rw [counter_keys] at h1
    exact ⟨(mem_firstOccurrences ds d).mp h1, counter_counts ds (d, n) h⟩
  · rintro ⟨hds, hn⟩
    have h1 : d ∈ (counter ds).map Prod.fst := by
      rw [counter_keys]
      exact (mem_firstOccurrences ds d).mpr hds
    obtain ⟨p, hp, hpd⟩ := List.mem_map.mp h1
    have hc := counter_counts ds p hp
    have hpdn : p = (d, n) := by
      refine Prod.ext_iff.mpr ⟨hpd, ?_⟩
      rw [hc, hpd, ← hn]
    rw [← hpdn]
    exact hp

/-- A nonempty input yields a nonempty counter. -/
theorem counter_ne_nil (ds : List String) (h : ds ≠ []) : counter ds ≠ [] := by
  cases ds with
  | nil => exact absurd rfl h
  | cons x ds =>
    intro hc
    have hx : x ∈ firstOccurrences (x :: ds) :=
      (mem_firstOccurrences _ x).mpr (List.mem_cons_self x ds)
    rw [← counter_keys, hc] at hx
    simp at hx

/-- The left fold of `Nat.max` computes an upper bound attained by the seed
or by a list element. -/
theorem foldl_max_spec : ∀ (l : List Nat) (x : Nat),
    (l.foldl Nat.max x = x ∨ l.foldl Nat.max x ∈ l) ∧
    x ≤ l.foldl Nat.max x ∧ ∀ y ∈ l, y ≤ l.foldl Nat.max x := by
  intro l
  induction l with
  | nil =>
    intro x
    exact ⟨Or.inl rfl, le_refl x, by simp⟩
  | cons z l ih =>
    intro x
    have hfold : (z :: l).foldl Nat.max x = l.foldl Nat.max (Nat.max x z) := rfl
    obtain ⟨hmem, hle, hall⟩ := ih (Nat.max x z)
    have hchoice : Nat.max x z = x ∨ Nat.max x z = z := max_choice x z
    have hxle : x ≤ Nat.max x z := le_max_left x z
    have hzle : z ≤ Nat.max x z := le_max_right x z
    refine ⟨?_, ?_, ?_⟩
    · rw [hfold]
      rcases hmem with hm | hm
      · rcases hchoice with hch | hch
        · exact Or.inl (hm.trans hch)
        · exact Or.inr (List.mem_cons.mpr (Or.inl (hm.trans hch)))
      · exact Or.inr (List.mem_cons_of_mem z hm)
    · rw [hfold]
      exact le_trans hxle hle
    · rw [hfold]
      intro y hy
      rcases List.mem_cons.mp hy with rfl | hy
      · exact le_trans hzle hle
      · exact hall y hy

/-- Python `max` over a nonempty value list: a member that bounds every
member. -/
theorem pyMaxNat_spec (l : List Nat) (h : l ≠ []) :
    pyMaxNat l ∈ l ∧ ∀ y ∈ l, y ≤ pyMaxNat l := by
  cases l with
  | nil => exact absurd rfl h
  | cons x xs =>
    obtain ⟨hmem, hle, hall⟩ := foldl_max_spec xs x
    constructor
    · rcases hmem with hm | hm
      · show xs.foldl Nat.max x ∈ x :: xs
        rw [hm]
        exact List.mem_cons_self x xs
      · exact List.mem_cons_of_mem x hm
    · intro y hy
      rcases List.mem_cons.mp hy with hy | hy
      · exact hy ▸ hle
      · exact hall y hy

/-- Every occurrence count is bounded by the maximum of the counter
values. -/
theorem count_le_counter_max (ds : List String) (e : String) :
    ds.count e ≤ pyMaxNat ((counter ds).map Prod.snd) := by
  by_cases he : e ∈ ds
  · have hmem : (e, ds.count e) ∈ counter ds := (counter_mem_iff ds e _).mpr ⟨he, rfl⟩
    have hvals : ds.count e ∈ (counter ds).map Prod.snd := List.mem_map_of_mem Prod.snd hmem
    have hml : (counter ds).map Prod.snd ≠ [] := by
      intro hnil
      rw [hnil] at hvals
      simp at hvals
    exact (pyMaxNat_spec _ hml).2 _ hvals
  · rw [List.count_eq_zero.mpr he]
    exact Nat.zero_le _

/-- The maximum of the counter values is attained by the count of some
member of the input list. -/
theorem counter_max_achieved (ds : List String) (h : ds ≠ []) :
    ∃ d ∈ ds, ds.count d = pyMaxNat ((counter ds).map Prod.snd) := by
  have hc := counter_ne_nil ds h
  have hml : (counter ds).map Prod.snd ≠ [] := by
    intro hnil
    exact hc (List.map_eq_nil_iff.mp hnil)
  obtain ⟨hmem, _⟩ := pyMaxNat_spec _ hml
  obtain ⟨p, hp, hps⟩ := List.mem_map.mp hmem
  have h1 := counter_counts ds p hp
  have hd : p.1 ∈ ds := by
    have h2 : p.1 ∈ (counter ds).map Prod.fst := List.mem_map_of_mem Prod.fst hp
    rw [counter_keys] at h2
    exact (mem_firstOccurrences ds p.1).mp h2
  exact ⟨p.1, hd, by rw [← h1, hps]⟩

/-- C4: `moda_diretores` returns on a nonempty collection exactly the
`(director, count)` pairs whose count is the maximum directing count over the
whole collection (all ties returned), the empty collection yields `[]`, and
on directors `A, B, A, B, C` the result is `{("A",2), ("B",2)}` without
`("C",1)`. -/
theorem moda_diretores_spec :
    moda_diretores [] = [] ∧
    (∀ (filmes : List Filme) (d : String) (n : Nat),
      (d, n) ∈ moda_diretores filmes ↔
        (n = (filmes.map (fun f => f.diretor)).count d ∧ 0 < n ∧
         ∀ e : String, (filmes.map (fun f => f.diretor)).count e ≤ n)) ∧
    moda_diretores exemploDiretores = [("A", 2), ("B", 2)] ∧
    ("C", 1) ∉ moda_diretores exemploDiretores := by
  refine ⟨rfl, ?_, by decide, by decide⟩
  intro filmes d n
  by_cases hfe : filmes = []
  · subst hfe
    constructor
    · intro hmem
      simp [moda_diretores] at hmem
    · rintro ⟨hn, hpos, _⟩
      simp at hn
      omega
  · have hds : filmes.map (fun f => f.diretor) ≠ [] := by
      intro h0
      exact hfe (List.map_eq_nil_iff.mp h0)
    have hcont := counter_ne_nil _ hds
    have hmoda : moda_diretores filmes =
        (counter (filmes.map (fun f => f.diretor))).filter
          (fun p => p.2 =
            pyMaxNat ((counter (filmes.map (fun f => f.diretor))).map (fun p => p.2))) := by
      rw [moda_diretores, if_neg hfe]
      dsimp only
      rw [if_neg hcont]
    rw [hmoda]
    constructor
    · intro hmem
      rw [List.mem_filter] at hmem
      obtain ⟨hmem, hfd⟩ := hmem
      obtain ⟨hdmem, hcount⟩ := (counter_mem_iff _ d n).mp hmem
      have hM : n =
          pyMaxNat ((counter (filmes.map (fun f => f.diretor))).map (fun p => p.2)) :=
        of_decide_eq_true hfd
      refine ⟨hcount, ?_, ?_⟩
      · rw [hcount]
        exact List.count_pos_iff.mpr hdmem
      · intro e
        have h1 := count_le_counter_max (filmes.map (fun f => f.diretor)) e
        rw [← hM] at h1
        exact h1
    · rintro ⟨hn, hpos, hall⟩
      have hd : d ∈ filmes.map (fun f => f.diretor) := by
        rw [hn] at hpos
        exact List.count_pos_iff.mp hpos
      have hmem : (d, n) ∈ counter (filmes.map (fun f => f.diretor)) :=
        (counter_mem_iff _ d n).mpr ⟨hd, hn⟩
      have hnM : n =
          pyMaxNat ((counter (filmes.map (fun f => f.diretor))).map (fun p => p.2)) := by
        apply le_antisymm
        · have hvals : n ∈ (counter (filmes.map (fun f => f.diretor))).map Prod.snd :=
            List.mem_map_of_mem Prod.snd hmem
          have hml : (counter (filmes.map (fun f => f.diretor))).map Prod.snd ≠ [] :=
            fun h0 => hcont (List.map_eq_nil_iff.mp h0)
          exact (pyMaxNat_spec _ hml).2 _ hvals
        · obtain ⟨d0, hd0, hc0⟩ := counter_max_achieved _ hds
          have h1 := hall d0
          rw [hc0] at h1
          exact h1
      rw [List.mem_filter]
      exact ⟨hmem, decide_eq_true hnM⟩

/-- Witness for C4: instantiating the characterisation at the example
collection shows that the count 2 of director `A` is maximal. -/
theorem moda_diretores_spec_witness :
    2 = (exemploDiretores.map (fun f => f.diretor)).count "A" ∧ 0 < 2 ∧
    ∀ e : String, (exemploDiretores.map (fun f => f.diretor)).count e ≤ 2 :=
  (moda_diretores_spec.2.1 exemploDiretores "A" 2).mp (by decide)

/-- Filtering an association list by value and projecting to keys equals
projecting to keys and filtering by the value function, when every entry is
consistent with that function. -/
theorem map_fst_filter_counter (l : List (String × Nat)) (cnt : String → Nat) (m : Nat)
    (hc : ∀ p ∈ l, p.2 = cnt p.1) :
    (l.filter (fun p => p.2 = m)).map Prod.fst =
      (l.map Prod.fst).filter (fun d => cnt d = m) := by
  induction l with
  | nil => rfl
  | cons p l ih =>
    have hp := hc p (List.mem_cons_self p l)
    have ih2 := ih (fun q hq => hc q (List.mem_cons_of_mem p hq))
    by_cases hm : p.2 = m
    · have hm2 : cnt p.1 = m := by rw [← hp]; exact hm
      simp only [List.filter_cons, List.map_cons, hm, hm2]
      simp [ih2]
    · have hm2 : ¬(cnt p.1 = m) := by rw [← hp]; exact hm
      simp only [List.filter_cons, List.map_cons]
      rw [if_neg (by simpa using hm), if_neg (by simpa using hm2), ih2]

/-- C10: on a nonempty collection the pairs of `moda_diretores` list the
winning directors in order of their first occurrence in the collection (the
insertion order of the counting pass). -/
theorem moda_diretores_ordem (filmes : List Filme) (h : filmes ≠ []) :
    ∃ m : Nat,
      (∀ e : String, (filmes.map (fun f => f.diretor)).count e ≤ m) ∧
      (∃ d ∈ filmes.map (fun f => f.diretor),
        (filmes.map (fun f => f.diretor)).count d = m) ∧
      (moda_diretores filmes).map Prod.fst =
        (firstOccurrences (filmes.map (fun f => f.diretor))).filter
          (fun d => (filmes.map (fun f => f.diretor)).count d = m) := by
  have hds : filmes.map (fun f => f.diretor) ≠ [] :=
    fun h0 => h (List.map_eq_nil_iff.mp h0)
  have hcont := counter_ne_nil _ hds
  refine ⟨pyMaxNat ((counter (filmes.map (fun f => f.diretor))).map (fun p => p.2)),
    ?_, ?_, ?_⟩
  · intro e
    exact count_le_counter_max _ e
  · exact counter_max_achieved _ hds
  · have hmoda : moda_diretores filmes =
        (counter (filmes.map (fun f => f.diretor))).filter
          (fun p => p.2 =
            pyMaxNat ((counter (filmes.map (fun f => f.diretor))).map (fun p => p.2))) := by
      rw [moda_diretores, if_neg h]
      dsimp only
      rw [if_neg hcont]
    rw [hmoda, ← counter_keys]
    exact map_fst_filter_counter _ _ _ (fun p hp => counter_counts _ p hp)

/-- Witness for C10 at the example collection with directors `A,B,A,B,C`. -/
theorem moda_diretores_ordem_witness :
    ∃ m : Nat,
      (∀ e : String, (exemploDiretores.map (fun f => f.diretor)).count e ≤ m) ∧
      (∃ d ∈ exemploDiretores.map (fun f => f.diretor),
        (exemploDiretores.map (fun f => f.diretor)).count d = m) ∧
      (moda_diretores exemploDiretores).map Prod.fst =
        (firstOccurrences (exemploDiretores.map (fun f => f.diretor))).filter
          (fun d => (exemploDiretores.map (fun f => f.diretor)).count d = m) :=
  moda_diretores_ordem exemploDiretores (by decide)
